import Mathlib

/-!
Verification development for the node-visibility and tree-layout engine of
the document-explorer frontend.  The definitions below are a shallow
embedding of the TypeScript source:

  * src/frontend/src/types/index.ts        (data model)
  * src/frontend/src/store/mindMapStore.ts (NodeStore / ExpansionState /
                                            LoadingState container)
  * src/frontend/src/hooks/useMindMap.ts   (visibility resolver, tree layout,
                                            render projection, expansion
                                            controller)

Conventions of the embedding:
  * JavaScript records keyed by node id (`nodesData`, the `positions` Map)
    are modelled as association lists with JS object / Map update semantics:
    setting an existing key updates the entry in place, a new key is
    appended.  `Object.values` is the list of second components in order.
  * `expandedNodes` and `loadingNodes` are read in the source only through
    boolean truthiness of `record[id]`; they are modelled as functions
    `String → Bool`, with record update as pointwise function update.
  * Pixel coordinates are rationals (ℚ); the source only ever adds,
    subtracts, halves and maximises the fixed integer layout constants, so
    every coordinate it produces is exactly representable.
  * The placement recursion of `positionNode` recurses through the
    children_ids graph with no cycle detection; on the (acyclic) node trees
    the backend produces its recursion depth is bounded by the number of
    visible nodes, so the embedding carries an explicit fuel argument and
    `calculateTreeLayout` passes `visibleNodes.length + 1`, which is enough
    fuel for every input on which the source terminates.
-/

/-- Node kinds, from `NodeType` in types/index.ts.  `section` is a Lean
keyword, hence the primed constructor name. -/
inductive NodeType where
  | root
  | section'
  | subsection
  | topic
  | detail
deriving DecidableEq, Repr

/-- One unit of document structure, from `MindMapNode` in types/index.ts.
`depth`, page numbers and the stored positions are carried as opaque payload;
no modelled operation reads them. -/
structure MindMapNode where
  id : String
  document_id : String
  parent_id : Option String
  title : String
  summary : String
  full_content : Option String
  node_type : NodeType
  depth : Int
  children_ids : List String
  key_concepts : List String
  has_children : Bool
  page_start : Option Int
  page_end : Option Int
  position_x : ℚ
  position_y : ℚ
deriving DecidableEq, Repr

/-- The store field `nodesData : Record<string, MindMapNode>` from mindMapStore.ts, as an
insertion-ordered association list with unique keys. -/
abbrev NodeStore : Type := List (String × MindMapNode)

/-- Reading `record[id]` on a JS object: the (unique) entry for the key. -/
def storeGet (s : NodeStore) (nodeId : String) : Option MindMapNode :=
  (List.find? (fun p => p.1 == nodeId) s).map (fun p => p.2)

/-- JS object assignment `record[k] = v`: an existing key is updated in
place (keys of a JS object are unique and keep their insertion position), a
new key is appended. -/
def setKey : NodeStore → String → MindMapNode → NodeStore
  | [], k, v => [(k, v)]
  | p :: rest, k, v => if p.1 == k then (k, v) :: rest else p :: setKey rest k v

/-- Action `addNodesData` from mindMapStore.ts: copies the store and then assigns
`newNodesData[node.id] = node` for each node of the argument, in order. -/
def addNodesData (s : NodeStore) (nodes : List MindMapNode) : NodeStore :=
  nodes.foldl (fun acc n => setKey acc n.id n) s

/-- Function `getVisibleNodes` from useMindMap.ts.  Iterates over
`Object.values(allNodes)`; a node is pushed if its `node_type` is `root`, or
if `node.parent_id` is truthy (non-null and non-empty) and
`expandedNodes[node.parent_id]` is truthy. -/
def getVisibleNodes (allNodes : NodeStore) (expandedNodes : String → Bool) :
    List MindMapNode :=
  (allNodes.map Prod.snd).filter (fun node =>
    node.node_type == NodeType.root ||
      (match node.parent_id with
       | some p => !(p == "") && expandedNodes p
       | none => false))

/-- Constants `LAYOUT_CONFIG` from useMindMap.ts. -/
structure LayoutConfig where
  nodeWidth : ℚ
  nodeHeight : ℚ
  horizontalSpacing : ℚ
  verticalSpacing : ℚ

def LAYOUT_CONFIG : LayoutConfig :=
  { nodeWidth := 280, nodeHeight := 140, horizontalSpacing := 60, verticalSpacing := 80 }

/-- Lookup `nodeMap.get`, where `nodeMap = new Map(visibleNodes.map(n => [n.id, n]))`:
with duplicate ids the later entry wins, exactly as repeated `Map.set`. -/
def mapGet (visibleNodes : List MindMapNode) (nodeId : String) : Option MindMapNode :=
  visibleNodes.foldl (fun acc n => if n.id == nodeId then some n else acc) none

/-- Helper `getVisibleChildren` from `calculateTreeLayout`: the children of an
expanded node that are present in the visible-node map, in `children_ids`
order. -/
def getVisibleChildren (visibleNodes : List MindMapNode)
    (expandedNodes : String → Bool) (nodeId : String) : List MindMapNode :=
  match mapGet visibleNodes nodeId with
  | none => []
  | some node =>
    if expandedNodes nodeId then node.children_ids.filterMap (mapGet visibleNodes)
    else []

/-- Helper `getSubtreeWidth` from `calculateTreeLayout`, with explicit fuel for the
recursion through the children graph (see the header comment). -/
def getSubtreeWidth : Nat → List MindMapNode → (String → Bool) → String → ℚ
  | 0, _, _, _ => LAYOUT_CONFIG.nodeWidth
  | f + 1, visibleNodes, expandedNodes, nodeId =>
    let children := getVisibleChildren visibleNodes expandedNodes nodeId
    if children.isEmpty then LAYOUT_CONFIG.nodeWidth
    else
      max LAYOUT_CONFIG.nodeWidth
        (children.foldl
          (fun sum child =>
            sum + getSubtreeWidth f visibleNodes expandedNodes child.id
              + LAYOUT_CONFIG.horizontalSpacing)
          (-LAYOUT_CONFIG.horizontalSpacing))

/-- The `positions` Map of `calculateTreeLayout`. -/
abbrev PosMap : Type := List (String × ℚ × ℚ)

/-- Update `positions.set(nodeId, p)`: JS `Map.set` updates an existing key in
place and appends a new one. -/
def posSet : PosMap → String → ℚ → ℚ → PosMap
  | [], k, x, y => [(k, x, y)]
  | e :: rest, k, x, y => if e.1 == k then (k, x, y) :: rest else e :: posSet rest k x y

/-- Lookup `positions.get(nodeId)`. -/
def posLookup (m : PosMap) (nodeId : String) : Option (ℚ × ℚ) :=
  (List.find? (fun e => e.1 == nodeId) m).map (fun e => e.2)

/-- The `totalWidth` reduction of `positionNode`:
`childWidths.reduce((sum, w) => sum + w + horizontalSpacing, -horizontalSpacing)`. -/
def totalWidthOf (childWidths : List ℚ) : ℚ :=
  childWidths.foldl (fun sum w => sum + w + LAYOUT_CONFIG.horizontalSpacing)
    (-LAYOUT_CONFIG.horizontalSpacing)

/-- Helper `positionNode` from `calculateTreeLayout`: sets the own position of the node,
then walks its visible children left to right, keeping the running
`currentX` (left edge of the next child's subtree slot) and recursing into
each child at the centre of its slot, one band further down. -/
def positionNode : Nat → List MindMapNode → (String → Bool) → String → ℚ → ℚ → PosMap → PosMap
  | 0, _, _, _, _, _, positions => positions
  | f + 1, visibleNodes, expandedNodes, nodeId, x, y, positions =>
    match mapGet visibleNodes nodeId with
    | none => positions
    | some _ =>
      let positions1 := posSet positions nodeId x y
      let children := getVisibleChildren visibleNodes expandedNodes nodeId
      if children.isEmpty then positions1
      else
        let childWidths := children.map
          (fun child => getSubtreeWidth f visibleNodes expandedNodes child.id)
        let totalWidth := totalWidthOf childWidths
        let childY := y + LAYOUT_CONFIG.nodeHeight + LAYOUT_CONFIG.verticalSpacing
        ((children.zip childWidths).foldl
          (fun st cw =>
            (st.1 + cw.2 + LAYOUT_CONFIG.horizontalSpacing,
             positionNode f visibleNodes expandedNodes cw.1.id (st.1 + cw.2 / 2) childY st.2))
          (x - totalWidth / 2, positions1)).2

/-- The child-placement loop of `positionNode`, abstracted over the
recursive call: state is the pair (currentX, positions) of the source's two
mutable loop variables.  `positionNode` at fuel f+1 unfolds to this with
`rec := positionNode f …` (lemma `positionNode_succ` below). -/
def positionChildren (rec : String → ℚ → ℚ → PosMap → PosMap)
    (pairs : List (MindMapNode × ℚ)) (startX childY : ℚ) (positions : PosMap) :
    ℚ × PosMap :=
  pairs.foldl
    (fun st cw =>
      (st.1 + cw.2 + LAYOUT_CONFIG.horizontalSpacing,
       rec cw.1.id (st.1 + cw.2 / 2) childY st.2))
    (startX, positions)

/-- The running `currentX` of the placement loop just before child `i` is
laid out: the left edge of child i's subtree slot. -/
def slotStart (startX : ℚ) (widths : List ℚ) (i : Nat) : ℚ :=
  startX + ((widths.take i).map (fun w => w + LAYOUT_CONFIG.horizontalSpacing)).sum

/-- Function `calculateTreeLayout` from useMindMap.ts.  The fuel
`visibleNodes.length + 1` bounds the recursion depth, which on any input the
source terminates on is at most the number of visible nodes. -/
def calculateTreeLayout (visibleNodes : List MindMapNode)
    (expandedNodes : String → Bool) : PosMap :=
  match visibleNodes.find? (fun n => n.node_type == NodeType.root) with
  | none => []
  | some rootNode =>
    positionNode (visibleNodes.length + 1) visibleNodes expandedNodes rootNode.id 0 0 []

/-- Colour lookup `NODE_TYPE_COLORS[node.node_type]` with default "#6b7280" from useMindMap.ts; the
record has an entry for every `node_type`, so the default is unreachable. -/
def nodeTypeColor : NodeType → String
  | NodeType.root => "#1a1a2e"
  | NodeType.section' => "#7c3aed"
  | NodeType.subsection => "#0891b2"
  | NodeType.topic => "#059669"
  | NodeType.detail => "#d97706"

/-- A React Flow node record as built by `buildFlowElements` (the fields the
core writes: id, position, payload, colour). -/
structure FlowNode where
  id : String
  position : ℚ × ℚ
  data : MindMapNode
  color : String
deriving DecidableEq, Repr

/-- A React Flow edge record as built by `buildFlowElements`. -/
structure FlowEdge where
  id : String
  source : String
  target : String
deriving DecidableEq, Repr

/-- Function `buildFlowElements` from useMindMap.ts: resolve visibility, lay the
visible nodes out, then project each visible node to a render record —
`positions.get(node.id) || { x: 0, y: 0 }` — and each visible node whose
parent is also visible to an edge record. -/
def buildFlowElements (allNodes : NodeStore) (expandedNodes : String → Bool) :
    List FlowNode × List FlowEdge :=
  let visibleNodes := getVisibleNodes allNodes expandedNodes
  let positions := calculateTreeLayout visibleNodes expandedNodes
  let flowNodes := visibleNodes.map (fun node =>
    { id := node.id
      position := (posLookup positions node.id).getD (0, 0)
      data := node
      color := nodeTypeColor node.node_type })
  let visibleNodeIds := visibleNodes.map (fun n => n.id)
  let flowEdges := (visibleNodes.filter (fun node =>
      match node.parent_id with
      | some p => !(p == "") && visibleNodeIds.contains p
      | none => false)).map (fun node =>
    { id := node.parent_id.getD "" ++ "-" ++ node.id
      source := node.parent_id.getD ""
      target := node.id })
  (flowNodes, flowEdges)

/-- The slice of the zustand store that the expansion controller reads and
writes (mindMapStore.ts). -/
structure MindMapState where
  nodesData : NodeStore
  flowNodes : List FlowNode
  flowEdges : List FlowEdge
  expandedNodes : String → Bool
  selectedNodeId : Option String
  loadingNodes : String → Bool

/-- Action `toggleNodeExpanded` from mindMapStore.ts:
`{ ...expandedNodes, [nodeId]: !expandedNodes[nodeId] }`. -/
def toggleNodeExpanded (s : MindMapState) (nodeId : String) : MindMapState :=
  { s with expandedNodes := fun id =>
      if id == nodeId then !(s.expandedNodes nodeId) else s.expandedNodes id }

/-- Action `setNodeLoading` from mindMapStore.ts. -/
def setNodeLoading (s : MindMapState) (nodeId : String) (loading : Bool) : MindMapState :=
  { s with loadingNodes := fun id =>
      if id == nodeId then loading else s.loadingNodes id }

/-- The `buildFlowElements` + `setFlowNodes` + `setFlowEdges` sequence that
follows every committed toggle in useMindMap.ts. -/
def rebuildFlow (s : MindMapState) : MindMapState :=
  let fe := buildFlowElements s.nodesData s.expandedNodes
  { s with flowNodes := fe.1, flowEdges := fe.2 }

/-- The externally observable action a controller step requests from the
document service. -/
inductive Effect where
  | fetchChildren (nodeId : String)
deriving DecidableEq, Repr

/-- Callback `handleNodeExpand` from useMindMap.ts, as a step function returning the
new store state and the fetches it issues.  The final branch models
`expandMutation.mutate(nodeId)`, whose `mutationFn` synchronously sets
`LoadingState[nodeId]` and starts the `expandNode` request. -/
def handleNodeExpand (s : MindMapState) (nodeId : String) :
    MindMapState × List Effect :=
  match storeGet s.nodesData nodeId with
  | none => (s, [])
  | some node =>
    if !node.has_children then (s, [])
    else if s.expandedNodes nodeId then
      (rebuildFlow (toggleNodeExpanded s nodeId), [])
    else if node.children_ids.all (fun cid => (storeGet s.nodesData cid).isSome) then
      (rebuildFlow (toggleNodeExpanded s nodeId), [])
    else
      (setNodeLoading s nodeId true, [Effect.fetchChildren nodeId])

/-- Handler `expandMutation.onSuccess` from useMindMap.ts: merge the returned node
and its children into the store, toggle the node expanded, rebuild the flow
elements from the updated state, clear the node's loading flag. -/
def expandOnSuccess (s : MindMapState) (nodeId : String)
    (node : MindMapNode) (children : List MindMapNode) : MindMapState :=
  setNodeLoading
    (rebuildFlow
      (toggleNodeExpanded
        { s with nodesData := addNodesData s.nodesData (node :: children) } nodeId))
    nodeId false

/-- Handler `expandMutation.onError` from useMindMap.ts: clear the loading
flag of the node; nothing else happens and no new fetch is issued. -/
def expandOnError (s : MindMapState) (nodeId : String) :
    MindMapState × List Effect :=
  (setNodeLoading s nodeId false, [])

/-! ### Concrete instances used by counterexamples and witnesses -/

/-- A template node; the concrete stores below override the relevant fields. -/
def baseNode : MindMapNode :=
  { id := "n", document_id := "doc", parent_id := none, title := "t",
    summary := "s", full_content := none, node_type := NodeType.topic,
    depth := 0, children_ids := [], key_concepts := [],
    has_children := false, page_start := none, page_end := none,
    position_x := 0, position_y := 0 }

/-- A non-root node whose declared parent "a" is marked expanded but is not
itself in the store (hence not in the visible set). -/
def cexNodeB : MindMapNode :=
  { baseNode with id := "b", parent_id := some "a", node_type := NodeType.section' }

def c1store : NodeStore := [("b", cexNodeB)]

def c1exp : String → Bool := fun id => id == "a"

def c2oldNode : MindMapNode := { baseNode with id := "n1", title := "old title" }

def c2newNode : MindMapNode := { baseNode with id := "n1", title := "new title" }

def c2store : NodeStore := [("n1", c2oldNode)]

/-- A collapsed node with a declared child "c" that is absent from the
store, so that expanding it must go through the fetch path. -/
def c3node : MindMapNode :=
  { baseNode with id := "b", has_children := true, children_ids := ["c"] }

def c3state : MindMapState :=
  { nodesData := [("b", c3node)], flowNodes := [], flowEdges := [],
    expandedNodes := fun _ => false, selectedNodeId := none,
    loadingNodes := fun _ => false }

/-- The same store with the fetch for "b" already marked in flight. -/
def c3loadingState : MindMapState :=
  { c3state with loadingNodes := fun id => id == "b" }

def c7nodeR : MindMapNode :=
  { baseNode with
    id := "r"
    node_type := NodeType.root
    children_ids := ["a"]
    has_children := true }

def c7nodeA : MindMapNode :=
  { baseNode with
    id := "a"
    parent_id := some "r"
    node_type := NodeType.section'
    children_ids := ["c"]
    has_children := true }

def c7nodeC : MindMapNode :=
  { baseNode with id := "c", parent_id := some "a" }

/-- Root expanded, node "a" collapsed with its child "c" already fetched. -/
def c7state : MindMapState :=
  { nodesData := [("r", c7nodeR), ("a", c7nodeA), ("c", c7nodeC)],
    flowNodes := [], flowEdges := [],
    expandedNodes := fun id => id == "r", selectedNodeId := none,
    loadingNodes := fun _ => false }

def c4nodeA : MindMapNode :=
  { baseNode with id := "a", parent_id := some "r", node_type := NodeType.section' }

def c4nodeB : MindMapNode :=
  { baseNode with id := "b", parent_id := some "r", node_type := NodeType.section' }

def c4nodeR : MindMapNode :=
  { baseNode with
    id := "r"
    node_type := NodeType.root
    children_ids := ["a", "b"]
    has_children := true }

def c4vis : List MindMapNode := [c4nodeR, c4nodeA, c4nodeB]

def c4exp : String → Bool := fun id => id == "r"

def c9vis : List MindMapNode := [c4nodeR]

/-- A store whose visible set contains a node ("b") that the placement
recursion never reaches: its parent "a" is marked expanded but absent. -/
def c10store : NodeStore :=
  [("r", { baseNode with id := "r", node_type := NodeType.root }),
   ("b", cexNodeB)]

def c10exp : String → Bool := fun id => id == "a"

/-- Depth in the visible tree: `ReachDepth vis expandedNodes start target d`
holds when `target` is reached from `start` by exactly `d` steps of
`getVisibleChildren` — the visible-tree depth of `target` below `start`.
With `start` the root this is the depth the layout claim speaks of; on a
well-formed tree the depth of a node below the root is unique. -/
inductive ReachDepth (vis : List MindMapNode) (expandedNodes : String → Bool)
    (start : String) : String → Nat → Prop where
  | refl : ReachDepth vis expandedNodes start start 0
  | step (parent : String) (d : Nat) (c : MindMapNode) :
      ReachDepth vis expandedNodes start parent d →
      c ∈ getVisibleChildren vis expandedNodes parent →
      ReachDepth vis expandedNodes start c.id (d + 1)

/-! ### Association-map lemmas -/

theorem storeGet_nil (nodeId : String) : storeGet [] nodeId = none := rfl

theorem storeGet_cons (p : String × MindMapNode) (rest : NodeStore) (nodeId : String) :
    storeGet (p :: rest) nodeId
      = if p.1 == nodeId then some p.2 else storeGet rest nodeId := by
  by_cases h : p.1 == nodeId <;> simp [storeGet, List.find?_cons, h]

theorem storeGet_setKey (s : NodeStore) (k : String) (v : MindMapNode) (nodeId : String) :
    storeGet (setKey s k v) nodeId = if k == nodeId then some v else storeGet s nodeId := by
  induction s with
  | nil =>
    by_cases h : k = nodeId <;> simp [setKey, storeGet_cons, storeGet_nil, h]
  | cons p rest ih =>
    by_cases hpk : p.1 = k
    · by_cases hkid : k = nodeId <;>
        simp [setKey, hpk, storeGet_cons, hkid]
    · by_cases hpid : p.1 = nodeId
      · have hk : ¬ k = nodeId := fun hc => hpk (by rw [hpid, hc])
        have hk2 : ¬ nodeId = k := fun hc => hk hc.symm
        simp [setKey, hpk, storeGet_cons, hpid, hk, hk2]
      · simp [setKey, hpk, storeGet_cons, hpid, ih]

theorem posLookup_nil (nodeId : String) : posLookup [] nodeId = none := rfl

theorem posLookup_cons (e : String × ℚ × ℚ) (rest : PosMap) (nodeId : String) :
    posLookup (e :: rest) nodeId
      = if e.1 == nodeId then some e.2 else posLookup rest nodeId := by
  by_cases h : e.1 == nodeId <;> simp [posLookup, List.find?_cons, h]

theorem posLookup_posSet (m : PosMap) (k : String) (x y : ℚ) (nodeId : String) :
    posLookup (posSet m k x y) nodeId
      = if k == nodeId then some (x, y) else posLookup m nodeId := by
  induction m with
  | nil =>
    by_cases h : k = nodeId <;> simp [posSet, posLookup_cons, posLookup_nil, h]
  | cons e rest ih =>
    by_cases hek : e.1 = k
    · by_cases hkid : k = nodeId <;>
        simp [posSet, hek, posLookup_cons, hkid]
    · by_cases heid : e.1 = nodeId
      · have hk : ¬ k = nodeId := fun hc => hek (by rw [heid, hc])
        have hk2 : ¬ nodeId = k := fun hc => hk hc.symm
        simp [posSet, hek, posLookup_cons, heid, hk, hk2]
      · simp [posSet, hek, posLookup_cons, heid, ih]

theorem mem_posSet {e : String × ℚ × ℚ} {m : PosMap} {k : String} {x y : ℚ}
    (h : e ∈ posSet m k x y) : e ∈ m ∨ e = (k, x, y) := by
  induction m with
  | nil =>
    simp [posSet] at h
    exact Or.inr h
  | cons e0 rest ih =>
    by_cases he0 : e0.1 = k
    · simp [posSet, he0] at h
      rcases h with h | h
      · exact Or.inr h
      · exact Or.inl (List.mem_cons_of_mem _ h)
    · simp [posSet, he0] at h
      rcases h with h | h
      · exact Or.inl (by simp [h])
      · rcases ih h with h2 | h2
        · exact Or.inl (List.mem_cons_of_mem _ h2)
        · exact Or.inr h2

theorem mapGet_foldl_eq_some {k : String} {v : MindMapNode} :
    ∀ (l : List MindMapNode) (acc : Option MindMapNode),
      l.foldl (fun acc n => if n.id == k then some n else acc) acc = some v →
      acc = some v ∨ (v ∈ l ∧ v.id = k)
  | [], acc, h => Or.inl h
  | n :: rest, acc, h => by
    rcases mapGet_foldl_eq_some rest _ h with h2 | h2
    · by_cases hn : n.id = k
      · simp only [hn, beq_self_eq_true, if_true, Option.some.injEq] at h2
        rcases h2 with rfl
        exact Or.inr ⟨List.mem_cons_self _ _, hn⟩
      · simp [hn] at h2
        exact Or.inl h2
    · exact Or.inr ⟨List.mem_cons_of_mem _ h2.1, h2.2⟩

/-- A successful `nodeMap.get(k)` returns a member of the visible list whose
id is `k`. -/
theorem mapGet_eq_some {vis : List MindMapNode} {k : String} {v : MindMapNode}
    (h : mapGet vis k = some v) : v ∈ vis ∧ v.id = k := by
  rcases mapGet_foldl_eq_some vis none h with h2 | h2
  · exact absurd h2 (by simp)
  · exact h2

theorem mapGet_foldl_some {k : String} (w : MindMapNode) :
    ∀ (l : List MindMapNode),
      (l.foldl (fun acc n => if n.id == k then some n else acc) (some w)).isSome
  | [] => rfl
  | n :: rest => by
    rw [List.foldl_cons]
    cases hn : n.id == k
    · rw [if_neg Bool.false_ne_true]
      exact mapGet_foldl_some w rest
    · rw [if_pos rfl]
      exact mapGet_foldl_some n rest

/-- If some member of the visible list has id `k`, `nodeMap.get(k)` succeeds. -/
theorem mapGet_isSome {vis : List MindMapNode} {k : String}
    (h : ∃ u ∈ vis, u.id = k) : (mapGet vis k).isSome := by
  suffices haux : ∀ (l : List MindMapNode) (acc : Option MindMapNode),
      (∃ u ∈ l, u.id = k) → (l.foldl (fun acc n => if n.id == k then some n else acc) acc).isSome by
    exact haux vis none h
  intro l
  induction l with
  | nil => intro acc h2; simp at h2
  | cons n rest ih =>
    intro acc h2
    rcases h2 with ⟨u, hu, huk⟩
    rcases List.mem_cons.mp hu with rfl | humem
    · simp only [List.foldl, huk]
      simp only [beq_self_eq_true, if_true]
      exact mapGet_foldl_some u rest
    · exact ih _ ⟨u, humem, huk⟩

/-- Every node returned by `getVisibleChildren` has its id declared in the
`children_ids` of some visible node. -/
theorem getVisibleChildren_id {vis : List MindMapNode} {expanded : String → Bool}
    {nodeId : String} {c : MindMapNode}
    (h : c ∈ getVisibleChildren vis expanded nodeId) :
    ∃ v, v ∈ vis ∧ c.id ∈ v.children_ids := by
  rcases hm : mapGet vis nodeId with _ | node
  · simp [getVisibleChildren, hm] at h
  · by_cases he : expanded nodeId
    · simp only [getVisibleChildren, hm, he, if_true, List.mem_filterMap] at h
      rcases h with ⟨cid, hcid, hget⟩
      rcases mapGet_eq_some hget with ⟨_, hid⟩
      exact ⟨node, (mapGet_eq_some hm).1, by rw [hid]; exact hcid⟩
    · simp [getVisibleChildren, hm, he] at h

/-! ### Claim C1 — visibility -/

/-- Claim C1, counterexample.  In the store holding only node "b" (a
section node with parent id "a") with "a" marked expanded, `getVisibleNodes`
returns exactly [b]: b is visible although it is not the root and its parent
is not in the visible set (it is not even in the store), refuting the
claimed no-orphan-visibility property. -/
theorem c1_counterexample :
    getVisibleNodes c1store c1exp = [cexNodeB] ∧
    cexNodeB.node_type = NodeType.section' ∧
    cexNodeB.parent_id = some "a" ∧
    cexNodeB.id = "b" ∧
    (getVisibleNodes c1store c1exp).all (fun m => m.id != "a") = true :=
  ⟨rfl, rfl, rfl, rfl, rfl⟩

/-- Claim C1, amended: a node is in the output of `getVisibleNodes` iff it
is a value of the store and either its `node_type` is root, or its
`parent_id` is a non-null, non-empty id that `ExpansionState` marks
expanded.  The parent's own visibility (or even presence) is not checked. -/
theorem c1_amended (store : NodeStore) (expandedNodes : String → Bool) (n : MindMapNode) :
    n ∈ getVisibleNodes store expandedNodes ↔
      n ∈ store.map Prod.snd ∧
        (n.node_type = NodeType.root ∨
          ∃ p, n.parent_id = some p ∧ p ≠ "" ∧ expandedNodes p = true) := by
  unfold getVisibleNodes
  rw [List.mem_filter]
  rcases hb : n.parent_id with _ | p
  · simp [hb, beq_iff_eq]
  · by_cases hroot : n.node_type = NodeType.root
    · simp [hb, hroot, beq_iff_eq]
    · by_cases hp : p = ""
      · simp [hb, hroot, hp, beq_iff_eq]
      · by_cases hex : expandedNodes p
        · simp [hb, hroot, hp, hex, beq_iff_eq]
        · simp [hb, hroot, hp, hex, beq_iff_eq]

/-! ### Claim C2 — merge semantics of addNodesData -/

/-- Claim C2, counterexample.  The store already holds node "n1" with title
"old title"; merging an expand response carrying a node with the same id and
title "new title" overwrites the present entry, so the merge is not
insert-or-ignore. -/
theorem c2_counterexample :
    storeGet c2store "n1" = some c2oldNode ∧
    storeGet (addNodesData c2store [c2newNode]) "n1" = some c2newNode ∧
    c2oldNode.title = "old title" ∧
    c2newNode.title = "new title" ∧
    c2newNode.title ≠ c2oldNode.title :=
  ⟨rfl, rfl, rfl, rfl, by decide⟩

/-- Claim C2, amended: `addNodesData` is insert-or-overwrite.  After the
merge, the entry for an id is the last node with that id in the merged list
(overwriting any present entry), and the previous entry exactly when the
list mentions no such id. -/
theorem c2_amended (s : NodeStore) (nodes : List MindMapNode) (nodeId : String) :
    storeGet (addNodesData s nodes) nodeId
      = nodes.foldl (fun acc n => if n.id == nodeId then some n else acc)
          (storeGet s nodeId) := by
  induction nodes generalizing s with
  | nil => rfl
  | cons n rest ih =>
    have h1 : addNodesData s (n :: rest) = addNodesData (setKey s n.id n) rest := rfl
    rw [h1, ih, List.foldl_cons, storeGet_setKey]

/-! ### Claim C3 — duplicate expand requests -/

/-- Claim C3, counterexample.  Starting from a store where node "b" is
collapsed, has children, and its child "c" is not yet fetched, a first call
to `handleNodeExpand` issues a fetch and leaves LoadingState["b"] set; a
second call in that very state issues a second `fetchChildren` instead of
being ignored. -/
theorem c3_counterexample :
    (handleNodeExpand c3state "b").2 = [Effect.fetchChildren "b"] ∧
    (handleNodeExpand c3state "b").1.loadingNodes "b" = true ∧
    (handleNodeExpand (handleNodeExpand c3state "b").1 "b").2
      = [Effect.fetchChildren "b"] :=
  ⟨rfl, rfl, rfl⟩

/-- Claim C3, amended: `handleNodeExpand` never consults LoadingState.  For
any state in which the clicked node is present, has children, is collapsed
and has some declared child missing from the store — regardless of whether a
fetch for it is already in flight — the call marks the node loading and
issues a `fetchChildren`; the suppression of duplicate clicks exists only in
the UI layer, which renders the expand button disabled while the node's
LoadingState is true. -/
theorem c3_amended (s : MindMapState) (nodeId : String) (node : MindMapNode)
    (h1 : storeGet s.nodesData nodeId = some node)
    (h2 : node.has_children = true)
    (h3 : s.expandedNodes nodeId = false)
    (h4 : (node.children_ids.all fun cid => (storeGet s.nodesData cid).isSome) = false) :
    handleNodeExpand s nodeId
      = (setNodeLoading s nodeId true, [Effect.fetchChildren nodeId]) := by
  simp [handleNodeExpand, h1, h2, h3, h4]

/-- Claim C3, witness for the amended theorem: the concrete state in which a
fetch for "b" is already recorded as in flight still satisfies the amended
theorem's hypotheses, and the call fires a second fetch. -/
theorem c3_witness :
    storeGet c3loadingState.nodesData "b" = some c3node ∧
    c3node.has_children = true ∧
    c3loadingState.expandedNodes "b" = false ∧
    (c3node.children_ids.all fun cid => (storeGet c3loadingState.nodesData cid).isSome) = false ∧
    c3loadingState.loadingNodes "b" = true ∧
    handleNodeExpand c3loadingState "b"
      = (setNodeLoading c3loadingState "b" true, [Effect.fetchChildren "b"]) :=
  ⟨rfl, rfl, rfl, rfl, rfl, c3_amended c3loadingState "b" c3node rfl rfl rfl rfl⟩

/-! ### Claim C8 — failure path of the expand fetch -/

/-- Claim C8.  If a collapsed node with missing children is expanded (the
fetch path of `handleNodeExpand`) and the fetch then fails
(`expandMutation.onError`), the node's LoadingState is cleared, its
ExpansionState is still collapsed, no new fetch is issued, and NodeStore,
the whole ExpansionState, every other node's LoadingState, the flow
elements and the selection are exactly as before the fetch started. -/
theorem c8_on_error (s : MindMapState) (nodeId : String) (node : MindMapNode)
    (h1 : storeGet s.nodesData nodeId = some node)
    (h2 : node.has_children = true)
    (h3 : s.expandedNodes nodeId = false)
    (h4 : (node.children_ids.all fun cid => (storeGet s.nodesData cid).isSome) = false) :
    (expandOnError (handleNodeExpand s nodeId).1 nodeId).2 = [] ∧
    (expandOnError (handleNodeExpand s nodeId).1 nodeId).1.nodesData = s.nodesData ∧
    (expandOnError (handleNodeExpand s nodeId).1 nodeId).1.expandedNodes = s.expandedNodes ∧
    (expandOnError (handleNodeExpand s nodeId).1 nodeId).1.expandedNodes nodeId = false ∧
    (expandOnError (handleNodeExpand s nodeId).1 nodeId).1.loadingNodes nodeId = false ∧
    (∀ otherId, otherId ≠ nodeId →
      (expandOnError (handleNodeExpand s nodeId).1 nodeId).1.loadingNodes otherId
        = s.loadingNodes otherId) ∧
    (expandOnError (handleNodeExpand s nodeId).1 nodeId).1.flowNodes = s.flowNodes ∧
    (expandOnError (handleNodeExpand s nodeId).1 nodeId).1.flowEdges = s.flowEdges ∧
    (expandOnError (handleNodeExpand s nodeId).1 nodeId).1.selectedNodeId = s.selectedNodeId := by
  have hstep : handleNodeExpand s nodeId
      = (setNodeLoading s nodeId true, [Effect.fetchChildren nodeId]) := by
    simp [handleNodeExpand, h1, h2, h3, h4]
  rw [hstep]
  refine ⟨rfl, rfl, rfl, h3, ?_, ?_, rfl, rfl, rfl⟩
  · simp [expandOnError, setNodeLoading]
  · intro otherId hne
    simp [expandOnError, setNodeLoading, hne]

/-- Claim C8, witness: the concrete store of the C3 scenario satisfies the
hypotheses, and a failed fetch for "b" leaves the store exactly as before. -/
theorem c8_witness :
    storeGet c3state.nodesData "b" = some c3node ∧
    c3node.has_children = true ∧
    c3state.expandedNodes "b" = false ∧
    (c3node.children_ids.all fun cid => (storeGet c3state.nodesData cid).isSome) = false ∧
    (expandOnError (handleNodeExpand c3state "b").1 "b").1.expandedNodes
      = c3state.expandedNodes :=
  ⟨rfl, rfl, rfl, rfl, (c8_on_error c3state "b" c3node rfl rfl rfl rfl).2.2.1⟩

/-! ### Claim C7 — expand immediately followed by collapse -/

/-- Claim C7.  For a collapsed node whose declared children are all present
(so no fetch is needed), calling `handleNodeExpand` twice — expand, then
collapse — issues no fetch, leaves NodeStore and LoadingState untouched,
restores ExpansionState exactly (the collapse toggles only the clicked
node's entry, leaving every other node's entry as it was after the expand),
and therefore restores the exact pre-expansion visible set, layout
positions, and rebuilt flow elements. -/
theorem c7_expand_collapse (s : MindMapState) (nodeId : String) (node : MindMapNode)
    (h1 : storeGet s.nodesData nodeId = some node)
    (h2 : node.has_children = true)
    (h3 : s.expandedNodes nodeId = false)
    (h4 : (node.children_ids.all fun cid => (storeGet s.nodesData cid).isSome) = true) :
    (handleNodeExpand s nodeId).2 = [] ∧
    (handleNodeExpand (handleNodeExpand s nodeId).1 nodeId).2 = [] ∧
    (handleNodeExpand (handleNodeExpand s nodeId).1 nodeId).1.nodesData = s.nodesData ∧
    (handleNodeExpand (handleNodeExpand s nodeId).1 nodeId).1.expandedNodes = s.expandedNodes ∧
    (handleNodeExpand (handleNodeExpand s nodeId).1 nodeId).1.loadingNodes = s.loadingNodes ∧
    (∀ otherId, otherId ≠ nodeId →
      (handleNodeExpand (handleNodeExpand s nodeId).1 nodeId).1.expandedNodes otherId
        = (handleNodeExpand s nodeId).1.expandedNodes otherId) ∧
    getVisibleNodes (handleNodeExpand (handleNodeExpand s nodeId).1 nodeId).1.nodesData
        (handleNodeExpand (handleNodeExpand s nodeId).1 nodeId).1.expandedNodes
      = getVisibleNodes s.nodesData s.expandedNodes ∧
    calculateTreeLayout
        (getVisibleNodes (handleNodeExpand (handleNodeExpand s nodeId).1 nodeId).1.nodesData
          (handleNodeExpand (handleNodeExpand s nodeId).1 nodeId).1.expandedNodes)
        (handleNodeExpand (handleNodeExpand s nodeId).1 nodeId).1.expandedNodes
      = calculateTreeLayout (getVisibleNodes s.nodesData s.expandedNodes) s.expandedNodes ∧
    (handleNodeExpand (handleNodeExpand s nodeId).1 nodeId).1.flowNodes
      = (buildFlowElements s.nodesData s.expandedNodes).1 ∧
    (handleNodeExpand (handleNodeExpand s nodeId).1 nodeId).1.flowEdges
      = (buildFlowElements s.nodesData s.expandedNodes).2 := by
  have hstep1 : handleNodeExpand s nodeId = (rebuildFlow (toggleNodeExpanded s nodeId), []) := by
    simp [handleNodeExpand, h1, h2, h3, h4]
  have hdata1 : (rebuildFlow (toggleNodeExpanded s nodeId)).nodesData = s.nodesData := rfl
  have hexp1 : (rebuildFlow (toggleNodeExpanded s nodeId)).expandedNodes nodeId = true := by
    simp [rebuildFlow, toggleNodeExpanded, h3]
  have hstep2 : handleNodeExpand (rebuildFlow (toggleNodeExpanded s nodeId)) nodeId
      = (rebuildFlow (toggleNodeExpanded (rebuildFlow (toggleNodeExpanded s nodeId)) nodeId),
         []) := by
    have hget : storeGet (rebuildFlow (toggleNodeExpanded s nodeId)).nodesData nodeId
        = some node := by rw [hdata1]; exact h1
    simp [handleNodeExpand, hget, h2, hexp1]
  have hexpfinal :
      (rebuildFlow (toggleNodeExpanded (rebuildFlow (toggleNodeExpanded s nodeId)) nodeId)).expandedNodes
        = s.expandedNodes := by
    funext otherId
    by_cases hid : otherId = nodeId
    · subst hid
      simp [rebuildFlow, toggleNodeExpanded, h3]
    · simp [rebuildFlow, toggleNodeExpanded, hid]
  have hdatafinal :
      (rebuildFlow (toggleNodeExpanded (rebuildFlow (toggleNodeExpanded s nodeId)) nodeId)).nodesData
        = s.nodesData := rfl
  have hloadfinal :
      (rebuildFlow (toggleNodeExpanded (rebuildFlow (toggleNodeExpanded s nodeId)) nodeId)).loadingNodes
        = s.loadingNodes := rfl
  have hflowN :
      (rebuildFlow (toggleNodeExpanded (rebuildFlow (toggleNodeExpanded s nodeId)) nodeId)).flowNodes
        = (buildFlowElements s.nodesData s.expandedNodes).1 := by
    show (buildFlowElements
        (toggleNodeExpanded (rebuildFlow (toggleNodeExpanded s nodeId)) nodeId).nodesData
        (toggleNodeExpanded (rebuildFlow (toggleNodeExpanded s nodeId)) nodeId).expandedNodes).1
      = _
    rw [show (toggleNodeExpanded (rebuildFlow (toggleNodeExpanded s nodeId)) nodeId).nodesData
        = s.nodesData from rfl]
    rw [show (toggleNodeExpanded (rebuildFlow (toggleNodeExpanded s nodeId)) nodeId).expandedNodes
        = s.expandedNodes from hexpfinal]
  have hflowE :
      (rebuildFlow (toggleNodeExpanded (rebuildFlow (toggleNodeExpanded s nodeId)) nodeId)).flowEdges
        = (buildFlowElements s.nodesData s.expandedNodes).2 := by
    show (buildFlowElements
        (toggleNodeExpanded (rebuildFlow (toggleNodeExpanded s nodeId)) nodeId).nodesData
        (toggleNodeExpanded (rebuildFlow (toggleNodeExpanded s nodeId)) nodeId).expandedNodes).2
      = _
    rw [show (toggleNodeExpanded (rebuildFlow (toggleNodeExpanded s nodeId)) nodeId).nodesData
        = s.nodesData from rfl]
    rw [show (toggleNodeExpanded (rebuildFlow (toggleNodeExpanded s nodeId)) nodeId).expandedNodes
        = s.expandedNodes from hexpfinal]
  refine ⟨by rw [hstep1], ?_, ?_, ?_, ?_, ?_, ?_, ?_, ?_, ?_⟩
  · rw [hstep1]; simp only [hstep2]
  · rw [hstep1]; simp only [hstep2]; exact hdatafinal
  · rw [hstep1]; simp only [hstep2]; exact hexpfinal
  · rw [hstep1]; simp only [hstep2]; exact hloadfinal
  · intro otherId hid
    rw [hstep1]; simp only [hstep2]
    simp [rebuildFlow, toggleNodeExpanded, hid]
  · rw [hstep1]; simp only [hstep2]
    rw [hdatafinal, hexpfinal]
  · rw [hstep1]; simp only [hstep2]
    rw [hdatafinal, hexpfinal]
  · rw [hstep1]; simp only [hstep2]; exact hflowN
  · rw [hstep1]; simp only [hstep2]; exact hflowE

/-- Claim C7, witness: in the concrete three-node store (root expanded,
node "a" collapsed with its child "c" already fetched), expanding then
collapsing "a" restores the expansion function exactly and issues no
fetch. -/
theorem c7_witness :
    storeGet c7state.nodesData "a" = some c7nodeA ∧
    c7nodeA.has_children = true ∧
    c7state.expandedNodes "a" = false ∧
    (c7nodeA.children_ids.all fun cid => (storeGet c7state.nodesData cid).isSome) = true ∧
    (handleNodeExpand (handleNodeExpand c7state "a").1 "a").1.expandedNodes
      = c7state.expandedNodes :=
  ⟨rfl, rfl, rfl, rfl, (c7_expand_collapse c7state "a" c7nodeA rfl rfl rfl rfl).2.2.2.1⟩

/-! ### Width lemmas for the layout engine -/

theorem width_foldl (W : MindMapNode → ℚ) (l : List MindMapNode) (init : ℚ) :
    l.foldl (fun sum child => sum + W child + LAYOUT_CONFIG.horizontalSpacing) init
      = init + (l.map W).sum + LAYOUT_CONFIG.horizontalSpacing * l.length := by
  induction l generalizing init with
  | nil => simp
  | cons n rest ih =>
    rw [List.foldl_cons, ih]
    simp only [List.length_cons, List.map_cons, List.sum_cons]
    push_cast
    ring

theorem rat_foldl_spacing (l : List ℚ) (init : ℚ) :
    l.foldl (fun sum w => sum + w + LAYOUT_CONFIG.horizontalSpacing) init
      = init + l.sum + LAYOUT_CONFIG.horizontalSpacing * l.length := by
  induction l generalizing init with
  | nil => simp
  | cons w rest ih =>
    rw [List.foldl_cons, ih]
    simp only [List.length_cons, List.sum_cons]
    push_cast
    ring

theorem totalWidthOf_eq (ws : List ℚ) :
    totalWidthOf ws
      = ws.sum + LAYOUT_CONFIG.horizontalSpacing * ws.length
          - LAYOUT_CONFIG.horizontalSpacing := by
  rw [totalWidthOf, rat_foldl_spacing]
  ring

/-- Every subtree width the layout computes is at least one node width. -/
theorem getSubtreeWidth_ge (f : Nat) (vis : List MindMapNode)
    (expandedNodes : String → Bool) (nodeId : String) :
    LAYOUT_CONFIG.nodeWidth ≤ getSubtreeWidth f vis expandedNodes nodeId := by
  cases f with
  | zero => exact le_refl _
  | succ f =>
    by_cases h : (getVisibleChildren vis expandedNodes nodeId).isEmpty
    · simp [getSubtreeWidth, h]
    · simp only [getSubtreeWidth, h, if_false, Bool.false_eq_true]
      exact le_max_left _ _

/-! ### Claim C6 — the subtree-width recurrence -/

/-- Claim C6.  For any node: with zero visible children its subtree width is
`nodeWidth`; with children c :: cs it is the maximum of `nodeWidth` and the
sum of the children's subtree widths plus one `horizontalSpacing` per pair
of consecutive children (`cs.length` gaps, so no spacing term for a single
child).  The inner widths are computed by the recursive call one fuel step
down, exactly as the source recursion does. -/
theorem c6_subtree_width (f : Nat) (vis : List MindMapNode)
    (expandedNodes : String → Bool) (nodeId : String) :
    (getVisibleChildren vis expandedNodes nodeId = [] →
      getSubtreeWidth (f + 1) vis expandedNodes nodeId = LAYOUT_CONFIG.nodeWidth) ∧
    (∀ c cs, getVisibleChildren vis expandedNodes nodeId = c :: cs →
      getSubtreeWidth (f + 1) vis expandedNodes nodeId
        = max LAYOUT_CONFIG.nodeWidth
            (((c :: cs).map (fun ch => getSubtreeWidth f vis expandedNodes ch.id)).sum
              + LAYOUT_CONFIG.horizontalSpacing * cs.length)) := by
  constructor
  · intro h
    simp [getSubtreeWidth, h]
  · intro c cs h
    simp only [getSubtreeWidth, h, List.isEmpty_cons, if_false, Bool.false_eq_true]
    rw [width_foldl]
    congr 1
    simp only [List.length_cons]
    push_cast
    ring

/-- Claim C6, witness: the root of the concrete three-node tree has visible
children [a, b], and its width at fuel 2 is the claimed maximum. -/
theorem c6_witness :
    getVisibleChildren c4vis c4exp "r" = [c4nodeA, c4nodeB] ∧
    getSubtreeWidth 2 c4vis c4exp "r"
      = max LAYOUT_CONFIG.nodeWidth
          ((([c4nodeA, c4nodeB]).map (fun ch => getSubtreeWidth 1 c4vis c4exp ch.id)).sum
            + LAYOUT_CONFIG.horizontalSpacing * ([c4nodeB] : List MindMapNode).length) :=
  ⟨rfl, (c6_subtree_width 1 c4vis c4exp "r").2 c4nodeA [c4nodeB] rfl⟩

/-! ### Placement-loop lemmas -/

theorem positionChildren_nil (rec : String → ℚ → ℚ → PosMap → PosMap)
    (startX childY : ℚ) (positions : PosMap) :
    positionChildren rec [] startX childY positions = (startX, positions) := rfl

theorem positionChildren_cons (rec : String → ℚ → ℚ → PosMap → PosMap)
    (cw : MindMapNode × ℚ) (pairs : List (MindMapNode × ℚ))
    (startX childY : ℚ) (positions : PosMap) :
    positionChildren rec (cw :: pairs) startX childY positions
      = positionChildren rec pairs (startX + cw.2 + LAYOUT_CONFIG.horizontalSpacing)
          childY (rec cw.1.id (startX + cw.2 / 2) childY positions) := rfl

theorem slotStart_zero (startX : ℚ) (ws : List ℚ) : slotStart startX ws 0 = startX := by
  simp [slotStart]

theorem slotStart_cons (startX w : ℚ) (ws : List ℚ) (i : Nat) :
    slotStart startX (w :: ws) (i + 1)
      = slotStart (startX + w + LAYOUT_CONFIG.horizontalSpacing) ws i := by
  simp only [slotStart, List.take_succ_cons, List.map_cons, List.sum_cons]
  ring

/-- The final `currentX` of the placement loop is the slot boundary one past
the last child. -/
theorem positionChildren_fst (rec : String → ℚ → ℚ → PosMap → PosMap)
    (pairs : List (MindMapNode × ℚ)) (startX childY : ℚ) (positions : PosMap) :
    (positionChildren rec pairs startX childY positions).1
      = slotStart startX (pairs.map Prod.snd) pairs.length := by
  induction pairs generalizing startX positions with
  | nil => simp [positionChildren_nil, slotStart]
  | cons cw rest ih =>
    rw [positionChildren_cons, ih, List.map_cons, List.length_cons, slotStart_cons]

/-- The placement loop restarted at child i: the loop state just before
laying out child i has `currentX = slotStart startX ws i`. -/
theorem positionChildren_drop (rec : String → ℚ → ℚ → PosMap → PosMap)
    (childY : ℚ) :
    ∀ (i : Nat) (pairs : List (MindMapNode × ℚ)) (startX : ℚ) (positions : PosMap),
      i ≤ pairs.length →
      ∃ p1, positionChildren rec pairs startX childY positions
        = positionChildren rec (pairs.drop i)
            (slotStart startX (pairs.map Prod.snd) i) childY p1
  | 0, pairs, startX, positions, _ =>
    ⟨positions, by rw [List.drop_zero, slotStart_zero]⟩
  | i + 1, [], startX, positions, hi => by simp at hi
  | i + 1, cw :: rest, startX, positions, hi => by
    rcases positionChildren_drop rec childY i rest
        (startX + cw.2 + LAYOUT_CONFIG.horizontalSpacing)
        (rec cw.1.id (startX + cw.2 / 2) childY positions)
        (Nat.le_of_succ_le_succ hi) with ⟨p1, hp⟩
    refine ⟨p1, ?_⟩
    rw [positionChildren_cons, hp, List.drop_succ_cons, List.map_cons, slotStart_cons]

theorem sum_map_add_spacing (ws : List ℚ) :
    (ws.map (fun w => w + LAYOUT_CONFIG.horizontalSpacing)).sum
      = ws.sum + LAYOUT_CONFIG.horizontalSpacing * ws.length := by
  induction ws with
  | nil => simp
  | cons w rest ih =>
    simp only [List.map_cons, List.sum_cons, List.length_cons, ih]
    push_cast
    ring

/-- Unfolding of `positionNode` at positive fuel when the node is in the
visible map: it records the node's own position and runs the placement loop
over the visible children one band down, starting half the total width to
the left of the node's own x. -/
theorem positionNode_succ_some (f : Nat) (vis : List MindMapNode)
    (expandedNodes : String → Bool) (nodeId : String) (node : MindMapNode)
    (x y : ℚ) (positions : PosMap)
    (h : mapGet vis nodeId = some node) :
    positionNode (f + 1) vis expandedNodes nodeId x y positions
      = (if (getVisibleChildren vis expandedNodes nodeId).isEmpty then
          posSet positions nodeId x y
        else
          (positionChildren (positionNode f vis expandedNodes)
            ((getVisibleChildren vis expandedNodes nodeId).zip
              ((getVisibleChildren vis expandedNodes nodeId).map
                (fun child => getSubtreeWidth f vis expandedNodes child.id)))
            (x - totalWidthOf
                ((getVisibleChildren vis expandedNodes nodeId).map
                  (fun child => getSubtreeWidth f vis expandedNodes child.id)) / 2)
            (y + LAYOUT_CONFIG.nodeHeight + LAYOUT_CONFIG.verticalSpacing)
            (posSet positions nodeId x y)).2) := by
  simp only [positionNode, h]
  rfl

/-! ### Claim C4 — parent centred over its children's combined extent -/

/-- Claim C4.  When a visible node has at least one visible child,
`positionNode` places the node itself at x and runs the placement loop from
`x - totalWidth/2`; the left edge of the first child's subtree slot is that
start, the right edge of the last child's slot is the loop's final
`currentX` minus one `horizontalSpacing`, and x is exactly the midpoint of
those two edges. -/
theorem c4_centering (f : Nat) (vis : List MindMapNode)
    (expandedNodes : String → Bool) (nodeId : String) (node : MindMapNode)
    (x y : ℚ) (positions : PosMap)
    (children : List MindMapNode) (ws : List ℚ)
    (h1 : mapGet vis nodeId = some node)
    (hch : getVisibleChildren vis expandedNodes nodeId = children)
    (hne : children ≠ [])
    (hws : ws = children.map (fun c => getSubtreeWidth f vis expandedNodes c.id)) :
    positionNode (f + 1) vis expandedNodes nodeId x y positions
      = (positionChildren (positionNode f vis expandedNodes) (children.zip ws)
          (x - totalWidthOf ws / 2)
          (y + LAYOUT_CONFIG.nodeHeight + LAYOUT_CONFIG.verticalSpacing)
          (posSet positions nodeId x y)).2
    ∧ x = ((x - totalWidthOf ws / 2)
        + ((positionChildren (positionNode f vis expandedNodes) (children.zip ws)
            (x - totalWidthOf ws / 2)
            (y + LAYOUT_CONFIG.nodeHeight + LAYOUT_CONFIG.verticalSpacing)
            (posSet positions nodeId x y)).1
          - LAYOUT_CONFIG.horizontalSpacing)) / 2 := by
  have hlen : ws.length = children.length := by rw [hws, List.length_map]
  have hmapsnd : (children.zip ws).map Prod.snd = ws :=
    List.map_snd_zip children ws (le_of_eq hlen)
  have hziplen : (children.zip ws).length = ws.length := by
    rw [List.length_zip, hlen, min_self]
  constructor
  · obtain ⟨c, cs, rfl⟩ : ∃ c cs, children = c :: cs := by
      cases children with
      | nil => exact absurd rfl hne
      | cons c cs => exact ⟨c, cs, rfl⟩
    rw [positionNode_succ_some f vis expandedNodes nodeId node x y positions h1, hch]
    rw [← hws]
    simp [List.isEmpty_cons]
  · rw [positionChildren_fst, hmapsnd, hziplen, slotStart]
    have htake : ws.take ws.length = ws := by simp
    rw [htake, sum_map_add_spacing, totalWidthOf_eq]
    ring

/-- Claim C4, witness: for the concrete three-node tree the root (anchored
at x = 0) is the midpoint of the span from the left edge of the first
child's slot to the right edge of the last child's slot. -/
theorem c4_witness :
    mapGet c4vis "r" = some c4nodeR ∧
    getVisibleChildren c4vis c4exp "r" = [c4nodeA, c4nodeB] ∧
    ([c4nodeA, c4nodeB] : List MindMapNode) ≠ [] ∧
    (0 : ℚ) = (((0 : ℚ) - totalWidthOf
          ([c4nodeA, c4nodeB].map (fun c => getSubtreeWidth 1 c4vis c4exp c.id)) / 2)
        + ((positionChildren (positionNode 1 c4vis c4exp)
            ([c4nodeA, c4nodeB].zip
              ([c4nodeA, c4nodeB].map (fun c => getSubtreeWidth 1 c4vis c4exp c.id)))
            ((0 : ℚ) - totalWidthOf
              ([c4nodeA, c4nodeB].map (fun c => getSubtreeWidth 1 c4vis c4exp c.id)) / 2)
            ((0 : ℚ) + LAYOUT_CONFIG.nodeHeight + LAYOUT_CONFIG.verticalSpacing)
            (posSet [] "r" 0 0)).1
          - LAYOUT_CONFIG.horizontalSpacing)) / 2 := by
  have h := (c4_centering 1 c4vis c4exp "r" c4nodeR 0 0 []
    [c4nodeA, c4nodeB]
    ([c4nodeA, c4nodeB].map (fun c => getSubtreeWidth 1 c4vis c4exp c.id))
    rfl rfl (List.cons_ne_nil _ _) rfl).2
  exact ⟨rfl, rfl, List.cons_ne_nil _ _, h⟩

/-! ### Claim C5 — sibling subtrees occupy disjoint slots -/

/-- Slot arithmetic: with nonnegative widths, the slot of child i — from
`slotStart i` to `slotStart i + w i` — ends at least one
`horizontalSpacing` before the slot of any later child j begins. -/
theorem slotStart_gap (startX : ℚ) (ws : List ℚ) (i j : Nat)
    (hij : i < j) (hj : j ≤ ws.length) (hw : ∀ w ∈ ws, 0 ≤ w) :
    slotStart startX ws i + ws.getD i 0 + LAYOUT_CONFIG.horizontalSpacing
      ≤ slotStart startX ws j := by
  have hi : i < ws.length := lt_of_lt_of_le hij hj
  have hsplit : ws.take j = ws.take i ++ (ws.drop i).take (j - i) := by
    rw [← List.take_add]
    congr 1
    omega
  have hdrop : ws.drop i = ws[i] :: ws.drop (i + 1) := List.drop_eq_getElem_cons hi
  have hji : j - i = (j - i - 1) + 1 := by omega
  have hsp : (0 : ℚ) ≤ LAYOUT_CONFIG.horizontalSpacing := by norm_num [LAYOUT_CONFIG]
  have hseg : ws[i] + LAYOUT_CONFIG.horizontalSpacing
      ≤ (((ws.drop i).take (j - i)).map
          (fun w => w + LAYOUT_CONFIG.horizontalSpacing)).sum := by
    rw [hdrop, hji, List.take_succ_cons, List.map_cons, List.sum_cons]
    have hrest : (0 : ℚ)
        ≤ (((ws.drop (i + 1)).take (j - i - 1)).map
            (fun w => w + LAYOUT_CONFIG.horizontalSpacing)).sum := by
      apply List.sum_nonneg
      intro q hq
      rcases List.mem_map.mp hq with ⟨w, hwmem, rfl⟩
      have hw0 : (0 : ℚ) ≤ w :=
        hw w (List.drop_subset _ _ (List.take_subset _ _ hwmem))
      linarith
    linarith
  have hgetD : ws.getD i 0 = ws[i] := by
    simp [List.getD_eq_getElem?_getD, List.getElem?_eq_getElem hi]
  unfold slotStart
  rw [hsplit, List.map_append, List.sum_append, hgetD]
  linarith

/-- Claim C5.  In the placement loop over a node's visible children with
their subtree widths, (a) the loop state just before child j is laid out has
`currentX = slotStart j` (so child j is recursed at the centre of the slot
`[slotStart j, slotStart j + w j]`, the horizontal extent
`[x - w/2, x + w/2]` of its subtree), and (b) for any two distinct siblings
i < j, slot i ends at least `horizontalSpacing` before slot j begins: the
extents are disjoint. -/
theorem c5_no_overlap (f : Nat) (vis : List MindMapNode)
    (expandedNodes : String → Bool) (children : List MindMapNode) (ws : List ℚ)
    (startX childY : ℚ) (positions : PosMap) (i j : Nat)
    (hws : ws = children.map (fun c => getSubtreeWidth f vis expandedNodes c.id))
    (hij : i < j) (hj : j < children.length) :
    (∃ p1, positionChildren (positionNode f vis expandedNodes) (children.zip ws)
        startX childY positions
      = positionChildren (positionNode f vis expandedNodes) ((children.zip ws).drop j)
          (slotStart startX ws j) childY p1) ∧
    slotStart startX ws i + ws.getD i 0 + LAYOUT_CONFIG.horizontalSpacing
      ≤ slotStart startX ws j := by
  have hlen : ws.length = children.length := by rw [hws, List.length_map]
  have hziplen : (children.zip ws).length = ws.length := by
    rw [List.length_zip, hlen, min_self]
  have hmapsnd : (children.zip ws).map Prod.snd = ws :=
    List.map_snd_zip children ws (le_of_eq hlen)
  constructor
  · rcases positionChildren_drop (positionNode f vis expandedNodes) childY j
        (children.zip ws) startX positions
        (by rw [hziplen, hlen]; exact le_of_lt hj) with ⟨p1, hp⟩
    rw [hmapsnd] at hp
    exact ⟨p1, hp⟩
  · apply slotStart_gap startX ws i j hij (by rw [hlen]; exact le_of_lt hj)
    intro w hwmem
    rw [hws] at hwmem
    rcases List.mem_map.mp hwmem with ⟨c, _, rfl⟩
    have h280 := getSubtreeWidth_ge f vis expandedNodes c.id
    have hnw : (0 : ℚ) ≤ LAYOUT_CONFIG.nodeWidth := by norm_num [LAYOUT_CONFIG]
    linarith

/-- Claim C5, witness: the two siblings of the concrete tree, with the
subtree widths the layout computes for them, are laid out in disjoint slots
separated by the horizontal spacing. -/
theorem c5_witness :
    (∃ p1, positionChildren (positionNode 1 c4vis c4exp)
        ([c4nodeA, c4nodeB].zip
          ([c4nodeA, c4nodeB].map (fun c => getSubtreeWidth 1 c4vis c4exp c.id)))
        0 0 []
      = positionChildren (positionNode 1 c4vis c4exp)
          (([c4nodeA, c4nodeB].zip
            ([c4nodeA, c4nodeB].map (fun c => getSubtreeWidth 1 c4vis c4exp c.id))).drop 1)
          (slotStart 0 ([c4nodeA, c4nodeB].map
            (fun c => getSubtreeWidth 1 c4vis c4exp c.id)) 1) 0 p1) ∧
    slotStart 0 ([c4nodeA, c4nodeB].map (fun c => getSubtreeWidth 1 c4vis c4exp c.id)) 0
        + ([c4nodeA, c4nodeB].map (fun c => getSubtreeWidth 1 c4vis c4exp c.id)).getD 0 0
        + LAYOUT_CONFIG.horizontalSpacing
      ≤ slotStart 0 ([c4nodeA, c4nodeB].map
          (fun c => getSubtreeWidth 1 c4vis c4exp c.id)) 1 := by
  have h := c5_no_overlap 1 c4vis c4exp [c4nodeA, c4nodeB]
    ([c4nodeA, c4nodeB].map (fun c => getSubtreeWidth 1 c4vis c4exp c.id))
    0 0 [] 0 1 rfl (by decide) (by decide)
  exact h

/-! ### Claim C9 — vertical bands -/

/-- Prepending one visible-children step to a reachability derivation. -/
theorem reachDepth_prepend {vis : List MindMapNode} {expandedNodes : String → Bool}
    {parent : String} {c : MindMapNode} {target : String} {d : Nat}
    (hc : c ∈ getVisibleChildren vis expandedNodes parent)
    (h : ReachDepth vis expandedNodes c.id target d) :
    ReachDepth vis expandedNodes parent target (d + 1) := by
  induction h with
  | refl => exact ReachDepth.step parent 0 c (ReachDepth.refl) hc
  | step p d2 c2 hr hc2 ih => exact ReachDepth.step p (d2 + 1) c2 ih hc2

/-- Entries produced by one run of the placement loop either predate the
loop or belong to a node reachable from one of the loop's children, with a
y-coordinate of `childY` plus that node's depth below the child in band
heights — provided the recursive call behaves that way. -/
theorem positionChildren_mem_depth (rec : String → ℚ → ℚ → PosMap → PosMap)
    (vis : List MindMapNode) (expandedNodes : String → Bool) (childY : ℚ)
    (hrec : ∀ (nid : String) (x : ℚ) (acc : PosMap) (e2 : String × ℚ × ℚ),
      e2 ∈ rec nid x childY acc → e2 ∈ acc ∨ ∃ d : ℕ,
        ReachDepth vis expandedNodes nid e2.1 d ∧
        e2.2.2 = childY + d * (LAYOUT_CONFIG.nodeHeight + LAYOUT_CONFIG.verticalSpacing)) :
    ∀ (pairs : List (MindMapNode × ℚ)) (startX : ℚ) (positions : PosMap)
      (e : String × ℚ × ℚ),
      e ∈ (positionChildren rec pairs startX childY positions).2 →
      e ∈ positions ∨ ∃ cw ∈ pairs, ∃ d : ℕ,
        ReachDepth vis expandedNodes cw.1.id e.1 d ∧
        e.2.2 = childY + d * (LAYOUT_CONFIG.nodeHeight + LAYOUT_CONFIG.verticalSpacing)
  | [], _, _, _, h => Or.inl h
  | cw :: rest, startX, positions, e, h => by
    rw [positionChildren_cons] at h
    rcases positionChildren_mem_depth rec vis expandedNodes childY hrec rest _ _ e h with
      h2 | ⟨cw2, hcw2, d, hr2, hy2⟩
    · rcases hrec cw.1.id (startX + cw.2 / 2) positions e h2 with h3 | ⟨d, hr3, hy3⟩
      · exact Or.inl h3
      · exact Or.inr ⟨cw, List.mem_cons_self _ _, d, hr3, hy3⟩
    · exact Or.inr ⟨cw2, List.mem_cons_of_mem _ hcw2, d, hr2, hy2⟩

/-- Every entry `positionNode` adds to the position map belongs to a node
reachable through visible children from the node it was called on, and sits
exactly that reachability depth — in bands of height
`nodeHeight + verticalSpacing` — below the anchor y: the recursion adds one
band per visible-children step. -/
theorem positionNode_mem_depth :
    ∀ (f : Nat) (vis : List MindMapNode) (expandedNodes : String → Bool)
      (nodeId : String) (x y : ℚ) (positions : PosMap) (e : String × ℚ × ℚ),
      e ∈ positionNode f vis expandedNodes nodeId x y positions →
      e ∈ positions ∨ ∃ d : ℕ,
        ReachDepth vis expandedNodes nodeId e.1 d ∧
        e.2.2 = y + d * (LAYOUT_CONFIG.nodeHeight + LAYOUT_CONFIG.verticalSpacing) := by
  intro f
  induction f with
  | zero => intro vis expandedNodes nodeId x y positions e h; exact Or.inl h
  | succ f ih =>
    intro vis expandedNodes nodeId x y positions e h
    rcases hm : mapGet vis nodeId with _ | node
    · simp only [positionNode, hm] at h
      exact Or.inl h
    · rw [positionNode_succ_some f vis expandedNodes nodeId node x y positions hm] at h
      by_cases hc : (getVisibleChildren vis expandedNodes nodeId).isEmpty
      · rw [if_pos hc] at h
        rcases mem_posSet h with h2 | h2
        · exact Or.inl h2
        · refine Or.inr ⟨0, ?_, ?_⟩
          · rw [h2]
            exact ReachDepth.refl
          · rw [h2]
            simp
      · rw [if_neg hc] at h
        have hrec : ∀ (nid : String) (x2 : ℚ) (acc : PosMap) (e2 : String × ℚ × ℚ),
            e2 ∈ positionNode f vis expandedNodes nid x2
              (y + LAYOUT_CONFIG.nodeHeight + LAYOUT_CONFIG.verticalSpacing) acc →
            e2 ∈ acc ∨ ∃ d : ℕ,
              ReachDepth vis expandedNodes nid e2.1 d ∧
              e2.2.2 = (y + LAYOUT_CONFIG.nodeHeight + LAYOUT_CONFIG.verticalSpacing)
                + d * (LAYOUT_CONFIG.nodeHeight + LAYOUT_CONFIG.verticalSpacing) :=
          fun nid x2 acc e2 h2 => ih vis expandedNodes nid x2 _ acc e2 h2
        rcases positionChildren_mem_depth _ vis expandedNodes _ hrec _ _ _ e h with
          h2 | ⟨cw, hcw, d, hreach, hy⟩
        · rcases mem_posSet h2 with h3 | h3
          · exact Or.inl h3
          · refine Or.inr ⟨0, ?_, ?_⟩
            · rw [h3]
              exact ReachDepth.refl
            · rw [h3]
              simp
        · have hchild : cw.1 ∈ getVisibleChildren vis expandedNodes nodeId :=
            (List.of_mem_zip hcw).1
          refine Or.inr ⟨d + 1, reachDepth_prepend hchild hreach, ?_⟩
          rw [hy]
          push_cast
          ring

/-- The placement loop never touches the map entry of an id that is not
among the ids it recurses into. -/
theorem positionChildren_lookup (rec : String → ℚ → ℚ → PosMap → PosMap)
    (rid : String) (childY : ℚ)
    (hrec : ∀ (nid : String) (x : ℚ) (acc : PosMap), nid ≠ rid →
      posLookup (rec nid x childY acc) rid = posLookup acc rid) :
    ∀ (pairs : List (MindMapNode × ℚ)) (startX : ℚ) (positions : PosMap),
      (∀ pr ∈ pairs, pr.1.id ≠ rid) →
      posLookup ((positionChildren rec pairs startX childY positions).2) rid
        = posLookup positions rid
  | [], _, _, _ => rfl
  | cw :: rest, startX, positions, hpairs => by
    rw [positionChildren_cons]
    rw [positionChildren_lookup rec rid childY hrec rest _ _
      (fun pr hpr => hpairs pr (List.mem_cons_of_mem _ hpr))]
    exact hrec cw.1.id (startX + cw.2 / 2) positions
      (hpairs cw (List.mem_cons_self _ _))

/-- If no visible node declares `rid` among its children, a placement
recursion started at any other id leaves the map entry of `rid` alone. -/
theorem positionNode_lookup (vis : List MindMapNode) (expandedNodes : String → Bool)
    (rid : String) (hvis : ∀ v ∈ vis, rid ∉ v.children_ids) :
    ∀ (f : Nat) (nodeId : String) (x y : ℚ) (positions : PosMap), nodeId ≠ rid →
      posLookup (positionNode f vis expandedNodes nodeId x y positions) rid
        = posLookup positions rid := by
  intro f
  induction f with
  | zero => intro nodeId x y positions _; rfl
  | succ f ih =>
    intro nodeId x y positions hne
    rcases hm : mapGet vis nodeId with _ | node
    · simp only [positionNode, hm]
    · rw [positionNode_succ_some f vis expandedNodes nodeId node x y positions hm]
      have hset : posLookup (posSet positions nodeId x y) rid = posLookup positions rid := by
        rw [posLookup_posSet]
        simp [hne]
      by_cases hc : (getVisibleChildren vis expandedNodes nodeId).isEmpty
      · rw [if_pos hc]
        exact hset
      · rw [if_neg hc]
        rw [positionChildren_lookup (positionNode f vis expandedNodes) rid _
          (fun nid x2 acc hne2 => ih nid x2 _ acc hne2) _ _ _ ?hpairs]
        · exact hset
        case hpairs =>
          intro pr hpr
          have hmem : pr.1 ∈ getVisibleChildren vis expandedNodes nodeId :=
            (List.of_mem_zip hpr).1
          rcases getVisibleChildren_id hmem with ⟨v, hv, hid⟩
          intro hcontra
          exact hvis v hv (hcontra ▸ hid)

/-- The recursion of `calculateTreeLayout` records the root at (0, 0) and —
as long as no visible node lists the root among its children, which holds
for every well-formed tree — never revisits that entry. -/
theorem calculateTreeLayout_root (vis : List MindMapNode) (expandedNodes : String → Bool)
    (r : MindMapNode)
    (hr : vis.find? (fun n => n.node_type == NodeType.root) = some r)
    (hvis : ∀ v ∈ vis, r.id ∉ v.children_ids) :
    posLookup (calculateTreeLayout vis expandedNodes) r.id = some (0, 0) := by
  unfold calculateTreeLayout
  rw [hr]
  show posLookup (positionNode (vis.length + 1) vis expandedNodes r.id 0 0 []) r.id
    = some (0, 0)
  have hrmem : r ∈ vis := List.mem_of_find?_eq_some hr
  have hsome : (mapGet vis r.id).isSome := mapGet_isSome ⟨r, hrmem, rfl⟩
  rcases Option.isSome_iff_exists.mp hsome with ⟨node, hm⟩
  rw [positionNode_succ_some vis.length vis expandedNodes r.id node 0 0 [] hm]
  have hset : posLookup (posSet [] r.id 0 0) r.id = some (0, 0) := by
    rw [posLookup_posSet]
    simp
  by_cases hc : (getVisibleChildren vis expandedNodes r.id).isEmpty
  · rw [if_pos hc]
    exact hset
  · rw [if_neg hc]
    rw [positionChildren_lookup (positionNode vis.length vis expandedNodes) r.id _
      (fun nid x2 acc hne2 =>
        positionNode_lookup vis expandedNodes r.id hvis vis.length nid x2 _ acc hne2)
      _ _ _ ?hpairs]
    · exact hset
    case hpairs =>
      intro pr hpr
      have hmem : pr.1 ∈ getVisibleChildren vis expandedNodes r.id :=
        (List.of_mem_zip hpr).1
      rcases getVisibleChildren_id hmem with ⟨v, hv, hid⟩
      intro hcontra
      exact hvis v hv (hcontra ▸ hid)

/-- Claim C9.  Every position `calculateTreeLayout` emits belongs to a node
at some depth d in the visible tree — d `getVisibleChildren` steps below the
root the recursion starts from — and its y-coordinate is exactly that depth
times `nodeHeight + verticalSpacing`: each recursion step from a parent to
its visible children adds exactly one band.  The root itself is placed at
(0, 0); its entry survives untouched whenever no visible node lists the root
among its children, which the data model guarantees (the root is the unique
node without a parent). -/
theorem c9_vertical_bands (vis : List MindMapNode) (expandedNodes : String → Bool) :
    (∀ r : MindMapNode, vis.find? (fun n => n.node_type == NodeType.root) = some r →
      ∀ e ∈ calculateTreeLayout vis expandedNodes, ∃ d : ℕ,
        ReachDepth vis expandedNodes r.id e.1 d ∧
        e.2.2 = d * (LAYOUT_CONFIG.nodeHeight + LAYOUT_CONFIG.verticalSpacing)) ∧
    (∀ r : MindMapNode, vis.find? (fun n => n.node_type == NodeType.root) = some r →
      (∀ v ∈ vis, r.id ∉ v.children_ids) →
      posLookup (calculateTreeLayout vis expandedNodes) r.id = some (0, 0)) := by
  constructor
  · intro r hr e he
    unfold calculateTreeLayout at he
    rw [hr] at he
    rcases positionNode_mem_depth _ vis expandedNodes r.id 0 0 [] e he with
      h2 | ⟨d, hreach, hd⟩
    · simp at h2
    · refine ⟨d, hreach, ?_⟩
      rw [hd]
      ring
  · intro r hr hvis
    exact calculateTreeLayout_root vis expandedNodes r hr hvis

/-- Claim C9, witness: in the one-node visible list holding only the root,
the layout emits exactly the root's entry, at depth 0 and y = 0, and looking
the root up yields (0, 0). -/
theorem c9_witness :
    c9vis.find? (fun n => n.node_type == NodeType.root) = some c4nodeR ∧
    (("r", (0 : ℚ), (0 : ℚ)) ∈ calculateTreeLayout c9vis c4exp) ∧
    (∃ d : ℕ, ReachDepth c9vis c4exp c4nodeR.id "r" d ∧
      (0 : ℚ) = d * (LAYOUT_CONFIG.nodeHeight + LAYOUT_CONFIG.verticalSpacing)) ∧
    posLookup (calculateTreeLayout c9vis c4exp) c4nodeR.id = some (0, 0) :=
  ⟨rfl, by decide,
    (c9_vertical_bands c9vis c4exp).1 c4nodeR rfl ("r", 0, 0) (by decide),
    (c9_vertical_bands c9vis c4exp).2 c4nodeR rfl (by decide)⟩

/-! ### Claim C10 — default position (0, 0) for unplaced visible nodes -/

/-- Claim C10.  A visible node to which the layout assigned no position
still gets a flow record, with `positions.get(node.id) || { x: 0, y: 0 }`
falling back to (0, 0) — the same point where the layout anchors the
root. -/
theorem c10_default_position (store : NodeStore) (expandedNodes : String → Bool)
    (n : MindMapNode)
    (h1 : n ∈ getVisibleNodes store expandedNodes)
    (h2 : posLookup
        (calculateTreeLayout (getVisibleNodes store expandedNodes) expandedNodes)
        n.id = none) :
    ∃ fr ∈ (buildFlowElements store expandedNodes).1,
      fr.id = n.id ∧ fr.position = (0, 0) ∧ fr.data = n := by
  have hmem : ({ id := n.id
                 position := (posLookup
                   (calculateTreeLayout (getVisibleNodes store expandedNodes) expandedNodes)
                   n.id).getD (0, 0)
                 data := n
                 color := nodeTypeColor n.node_type } : FlowNode)
      ∈ (buildFlowElements store expandedNodes).1 :=
    List.mem_map_of_mem _ h1
  refine ⟨_, hmem, rfl, ?_, rfl⟩
  rw [h2]
  rfl

/-- Claim C10, witness: in the concrete store whose visible set is
{root "r", orphan "b"} (the parent of "b" is marked expanded but absent),
the layout assigns "b" no position, yet `buildFlowElements` emits a record
for it at (0, 0). -/
theorem c10_witness :
    cexNodeB ∈ getVisibleNodes c10store c10exp ∧
    posLookup (calculateTreeLayout (getVisibleNodes c10store c10exp) c10exp)
      cexNodeB.id = none ∧
    (∃ fr ∈ (buildFlowElements c10store c10exp).1,
      fr.id = cexNodeB.id ∧ fr.position = (0, 0) ∧ fr.data = cexNodeB) :=
  ⟨by decide, by decide,
    c10_default_position c10store c10exp cexNodeB (by decide) (by decide)⟩
